import Mathlib

/-!
# Verification of the Grid Online game engine

A shallow embedding of the Grid Online server's game model
(`grid_common/src/lib.rs`, `grid_server/src/model.rs`,
`grid_server/src/main.rs`) together with proofs about the claims of the
specification.

Randomness in the source (`deck.shuffle`, `choose_multiple`,
`taken_cards.shuffle`) is modelled by passing the random results in as
parameters, constrained in the theorems by the properties the random
sources guarantee (a shuffle permutes its input; `choose_multiple` picks
distinct in-range indices).
-/

namespace GridOnline

/-- The size of the game board (`BOARD_SIZE` in `grid_common`). -/
def BOARD_SIZE : Nat := 11

/-- Hand size (`HAND_SIZE` in `grid_common`). -/
def HAND_SIZE : Nat := 5

/-- The suit of a card. -/
inductive Suit where
  | Clubs
  | Diamonds
  | Hearts
  | Spades
deriving DecidableEq, Repr

/-- The value of a card. -/
inductive Value where
  | Ace
  | Two
  | Three
  | Four
  | Five
  | Six
  | Seven
  | Eight
  | Nine
  | Ten
  | Jack
  | Queen
  | King
deriving DecidableEq, Repr

/-- The `u8` representation of a `Value` (`#[repr(u8)]` with `Ace = 1`);
the source casts values with `as u8` to compare ranks. -/
def Value.toU8 : Value → Nat
  | .Ace => 1
  | .Two => 2
  | .Three => 3
  | .Four => 4
  | .Five => 5
  | .Six => 6
  | .Seven => 7
  | .Eight => 8
  | .Nine => 9
  | .Ten => 10
  | .Jack => 11
  | .Queen => 12
  | .King => 13

/-- A card: `Card(pub Suit, pub Value)`. -/
structure Card where
  suit : Suit
  value : Value
deriving DecidableEq, Repr

/-- The game board: `Board(pub [[Option<Card>; BOARD_SIZE]; BOARD_SIZE])`,
row-major.  Embedded as a list of rows; the constructors in the source
always build `BOARD_SIZE × BOARD_SIZE` boards. -/
abbrev Board := List (List (Option Card))

/-- Read a board cell (returns `none` out of range, where the source
would be guarded by bounds checks). -/
def getCell (b : Board) (row col : Nat) : Option Card :=
  (b.getD row []).getD col none

/-- Write a board cell (no-op out of range, where the source would be
guarded by bounds checks). -/
def setCell (b : Board) (row col : Nat) (v : Option Card) : Board :=
  b.set row ((b.getD row []).set col v)

/-- The all-empty `BOARD_SIZE × BOARD_SIZE` board
(`Board([[None; BOARD_SIZE]; BOARD_SIZE])`). -/
def emptyBoard : Board :=
  List.replicate BOARD_SIZE (List.replicate BOARD_SIZE (none : Option Card))

/-- `Board::can_play_at` from `grid_common/src/lib.rs`. -/
def Board.can_play_at (b : Board) (row col : Nat) : Bool :=
  -- Check bounds
  if row ≥ BOARD_SIZE || col ≥ BOARD_SIZE then false
  -- Check if position is already occupied
  else if (getCell b row col).isSome then false
  -- Check if board is empty: first move must be in center
  else if b.all (fun board_row => board_row.all (fun cell => cell.isNone)) then
    decide (row = BOARD_SIZE / 2) && decide (col = BOARD_SIZE / 2)
  -- Board is not empty: position must be adjacent to an existing card
  else
    ([-1, 0, 1] : List Int).any fun dr =>
      ([-1, 0, 1] : List Int).any fun dc =>
        if dr = 0 && dc = 0 then false
        else
          let adj_row := (row : Int) + dr
          let adj_col := (col : Int) + dc
          decide (0 ≤ adj_row) && decide (adj_row < (BOARD_SIZE : Int)) &&
          decide (0 ≤ adj_col) && decide (adj_col < (BOARD_SIZE : Int)) &&
          (getCell b adj_row.toNat adj_col.toNat).isSome

/-- A move a player can make (`PlayerMove`). -/
structure PlayerMove where
  card : Nat
  location : Nat × Nat
deriving Repr

/-- Game state visible to a player (`PlayerVisibleGameState`). -/
structure PlayerVisibleGameState where
  board : Board
  hand : List Card
  deck : List Card
  username : String
  players : List (String × Nat)
  turn : Nat
deriving DecidableEq, Repr

/-- The taking variant (`TakingVariant`). -/
inductive TakingVariant where
  | SameNumber
  | SameNumberOrSuitRanked
deriving DecidableEq, Repr

/-- Game options (`GameOptions` in `grid_server/src/model.rs`). -/
structure GameOptions where
  sequester_cards : Bool
  taking_variant : TakingVariant
deriving Repr

/-- Per-player state (`PlayerState`): a hand and a personal deck. -/
structure PlayerState where
  hand : List Card
  deck : List Card
deriving DecidableEq, Repr

/-- `PlayerState::has_cards`. -/
def PlayerState.has_cards (p : PlayerState) : Bool :=
  !p.hand.isEmpty || !p.deck.isEmpty

/-- The authoritative game state (`GameState`). -/
structure GameState where
  game_options : GameOptions
  board : Board
  players : List (String × PlayerState)
  turn : Nat
deriving Repr

/-- Placeholder player entry used where the source indexes
`self.players[self.turn]` (which panics out of range; theorems carry the
in-range hypothesis). -/
def dfltPlayer : String × PlayerState := ("", ⟨[], []⟩)

/-- The 52-card deck built by `GameState::new` before shuffling: every
suit paired with every value, suit-major. -/
def fullDeck : List Card :=
  [Suit.Clubs, Suit.Diamonds, Suit.Hearts, Suit.Spades].flatMap fun suit =>
    [Value.Ace, Value.Two, Value.Three, Value.Four, Value.Five, Value.Six,
     Value.Seven, Value.Eight, Value.Nine, Value.Ten, Value.Jack, Value.Queen,
     Value.King].map fun value => Card.mk suit value

/-- Split one player's slice of the shuffled deck into an initial hand
(first `HAND_SIZE.min(len)` cards) and personal deck (the rest), as both
branches of `GameState::new` do.  `start`/`stop` are the slice bounds
`deck[start..stop]`. -/
def dealShare (deck : List Card) (start stop : Nat) : PlayerState :=
  let player_cards := (deck.drop start).take (stop - start)
  ⟨player_cards.take HAND_SIZE, player_cards.drop HAND_SIZE⟩

/-- `GameState::new`.  The shuffled 52-card deck is passed in as `deck`
(the source shuffles `fullDeck` in place); `gets_extra_cards` is the
result of `choose_multiple` (distinct in-range player indices, one per
remainder card) used only in the non-sequester branch. -/
def GameState.new (player_names : List String) (game_options : GameOptions)
    (deck : List Card) (gets_extra_cards : List Nat) : GameState :=
  let num_players := player_names.length
  let players :=
    if game_options.sequester_cards then
      -- Deal cards evenly to all players plus an extra "sequester" player
      let effective_players := num_players + 1
      let cards_per_player := deck.length / effective_players
      player_names.enum.map fun (i, player_name) =>
        (player_name, dealShare deck (i * cards_per_player) ((i + 1) * cards_per_player))
    else
      -- Deal cards evenly to all players, distribute extra cards randomly
      let cards_per_player := deck.length / num_players
      player_names.enum.map fun (i, player_name) =>
        let extra_card : Nat := if i ∈ gets_extra_cards then 1 else 0
        (player_name,
         dealShare deck (i * cards_per_player) ((i + 1) * cards_per_player + extra_card))
  { game_options := game_options, board := emptyBoard, players := players, turn := 0 }

/-- `GameState::state_for`.  The source panics on an out-of-range player
index; the panic is modelled as `none`. -/
def GameState.state_for (gs : GameState) (player_index : Nat) :
    Option PlayerVisibleGameState :=
  if player_index ≥ gs.players.length then none
  else
    let pp := gs.players.getD player_index dfltPlayer
    some { board := gs.board
         , hand := pp.2.hand
         , deck := pp.2.deck
         , username := pp.1
         , players := gs.players.map fun (name, state) =>
             (name, state.hand.length + state.deck.length)
         , turn := gs.turn }

/-- `GameState::get_options`. -/
def GameState.get_options (gs : GameState) : GameOptions := gs.game_options

/-- `GameState::get_player_names`. -/
def GameState.get_player_names (gs : GameState) : List String :=
  gs.players.map fun (name, _) => name

/-- `GameState::someone_has_won`. -/
def GameState.someone_has_won (gs : GameState) : Bool :=
  (gs.players.filter fun (_, state) => state.has_cards).length ≤ 1

/-- In-bounds test on scan coordinates, matching
`(0..BOARD_SIZE as i32).contains(&row) && (0..BOARD_SIZE as i32).contains(&col)`. -/
def inBoundsI (row col : Int) : Bool :=
  decide (0 ≤ row) && decide (row < (BOARD_SIZE : Int)) &&
  decide (0 ≤ col) && decide (col < (BOARD_SIZE : Int))

/-- The position reached after `k` steps in direction `d` from the
played cell `(r, c)`. -/
def posAt (r c : Nat) (d : Int × Int) (k : Nat) : Int × Int :=
  ((r : Int) + k * d.1, (c : Int) + k * d.2)

/-- The 8 directions of `find_taking_cards`: 4 orthogonal + 4 diagonal. -/
def directions : List (Int × Int) :=
  [(-1, 0), (1, 0), (0, -1), (0, 1), (-1, -1), (-1, 1), (1, -1), (1, 1)]

/-- The first `while` loop of `find_taking_cards` in one direction: walk
outward while in bounds, remembering the last (hence furthest) in-bounds
occupied cell whose card satisfies the predicate.  The scan visits the
positions at distances `1, 2, ...` until the first out-of-bounds one; no
ray can stay in bounds for more than `BOARD_SIZE` steps, so the
`takeWhile` over distances `1..BOARD_SIZE+1` visits exactly the cells the
source loop visits.  The result is the distance of the remembered cell
(the source stores the cell's coordinates, which determine and are
determined by the distance along the ray). -/
def rayScan (board : Board) (card_row card_col : Nat) (d : Int × Int)
    (predicate : Card → Bool) : Option Nat :=
  ((List.range' 1 BOARD_SIZE).takeWhile fun k =>
      inBoundsI (posAt card_row card_col d k).1 (posAt card_row card_col d k).2).foldl
    (fun found k =>
      match getCell board (posAt card_row card_col d k).1.toNat
          (posAt card_row card_col d k).2.toNat with
      | some board_card => if predicate board_card then some k else found
      | none => found)
    none

/-- `GameState::find_taking_cards`: for each direction with a furthest
match at distance `k`, the second `while` loop pushes the cells at
distances `0, 1, ..., k-1` (starting from the played cell itself) and
then the matching cell at distance `k`. -/
def GameState.find_taking_cards (board : Board) (card_row card_col : Nat)
    (predicate : Card → Bool) : List (Nat × Nat) :=
  directions.flatMap fun d =>
    match rayScan board card_row card_col d predicate with
    | some k =>
        (List.range (k + 1)).map fun i =>
          ((posAt card_row card_col d i).1.toNat, (posAt card_row card_col d i).2.toNat)
    | none => []

/-- The taking predicate selected by `match self.game_options.taking_variant`
in `apply_move`, as a function of the just-played card. -/
def takingPredicate (tv : TakingVariant) (card : Card) : Card → Bool :=
  match tv with
  | .SameNumber => fun target_card => target_card.value == card.value
  | .SameNumberOrSuitRanked => fun target_card =>
      target_card.value == card.value ||
        (target_card.suit == card.suit && target_card.value.toU8 < card.value.toU8)

/-- The `filter_map(|(row, col)| self.board.0[row][col].take())` step of
`apply_move`: visit the positions in order, removing and collecting the
card at each position that still holds one.  Returns the board after all
removals and the collected cards in collection order. -/
def takeCells (b : Board) : List (Nat × Nat) → Board × List Card
  | [] => (b, [])
  | p :: ps =>
      match getCell b p.1 p.2 with
      | some c =>
          let rest := takeCells (setCell b p.1 p.2 none) ps
          (rest.1, c :: rest.2)
      | none => takeCells b ps

/-- The hand-refill loop of `apply_move`:
`while !deck.is_empty() && hand.len() < HAND_SIZE { hand.push(deck.remove(0)) }`. -/
def refill (hand : List Card) : List Card → List Card × List Card
  | [] => (hand, [])
  | c :: rest =>
      if hand.length < HAND_SIZE then refill (hand ++ [c]) rest
      else (hand, c :: rest)

/-- The turn-advance loop of `apply_move`:
`turn = (turn + 1) % n; while !players[turn].has_cards() { turn = (turn + 1) % n }`,
with fuel `players.length` (enough to reach every index once; the source
loop terminates within that many steps whenever some player has cards,
and diverges otherwise — a case excluded by the theorems' hypotheses). -/
def findTurn (players : List (String × PlayerState)) : Nat → Nat → Nat
  | 0, t => t
  | fuel + 1, t =>
      if (players.getD t dfltPlayer).2.has_cards then t
      else findTurn players fuel ((t + 1) % players.length)

/-- The card `apply_move` plays: `current_player.hand.0.remove(player_move.card)`
returns the card at index `player_move.card`. -/
def playedCard (gs : GameState) (m : PlayerMove) : Card :=
  (gs.players.getD gs.turn dfltPlayer).2.hand.getD m.card ⟨.Clubs, .Ace⟩

/-- The acting player's hand after the played card is removed. -/
def handAfterPlay (gs : GameState) (m : PlayerMove) : List Card :=
  (gs.players.getD gs.turn dfltPlayer).2.hand.eraseIdx m.card

/-- The board after `self.board.0[row][col] = Some(card)`. -/
def boardAfterPlay (gs : GameState) (m : PlayerMove) : Board :=
  setCell gs.board m.location.1 m.location.2 (some (playedCard gs m))

/-- The positions `find_taking_cards` marks for taking, using the active
variant's predicate, on the board with the played card placed. -/
def capturedPositions (gs : GameState) (m : PlayerMove) : List (Nat × Nat) :=
  GameState.find_taking_cards (boardAfterPlay gs m) m.location.1 m.location.2
    (takingPredicate gs.game_options.taking_variant (playedCard gs m))

/-- The cards actually removed from the board (`taken_cards` before the
shuffle). -/
def takenCards (gs : GameState) (m : PlayerMove) : List Card :=
  (takeCells (boardAfterPlay gs m) (capturedPositions gs m)).2

/-- The board after the taken cards are removed. -/
def boardAfterTake (gs : GameState) (m : PlayerMove) : Board :=
  (takeCells (boardAfterPlay gs m) (capturedPositions gs m)).1

/-- The acting player's deck after the shuffled taken cards are appended
(`current_player.deck.0.extend(taken_cards)`). -/
def deckAfterCapture (shuffle : List Card → List Card) (gs : GameState)
    (m : PlayerMove) : List Card :=
  (gs.players.getD gs.turn dfltPlayer).2.deck ++ shuffle (takenCards gs m)

/-- `GameState::apply_move`.  `shuffle` stands for the in-place
`taken_cards.shuffle(&mut thread_rng())`; theorems that need it assume it
permutes its input.  Returns the success flag together with the updated
state (the source mutates `self` and returns the flag). -/
def GameState.apply_move (shuffle : List Card → List Card) (gs : GameState)
    (m : PlayerMove) : Bool × GameState :=
  let current_player := gs.players.getD gs.turn dfltPlayer
  -- Check - move must specify valid card within the current player's hand
  if m.card ≥ current_player.2.hand.length then (false, gs)
  -- Check - validate move location according to game rules
  else if !gs.board.can_play_at m.location.1 m.location.2 then (false, gs)
  else
    -- Play the card, take the found cards, refill the hand
    let afterRefill := refill (handAfterPlay gs m) (deckAfterCapture shuffle gs m)
    let players1 := gs.players.set gs.turn
      (current_player.1, ⟨afterRefill.1, afterRefill.2⟩)
    -- Move to next player's turn, skipping players with no cards
    (true,
     { game_options := gs.game_options
     , board := boardAfterTake gs m
     , players := players1
     , turn := findTurn players1 players1.length ((gs.turn + 1) % players1.length) })

/-- The session coordinator state (`ServerState` in
`grid_server/src/main.rs`); the per-connection websocket sinks are
abstracted to an arbitrary type `Conn`, and the `HashMap` registry to an
association list. -/
inductive ServerState (Conn : Type) where
  | Lobby (options : GameOptions) (num_players : Nat)
      (connections : List (String × Conn)) (join_code : String)
  | Running (game_state : GameState) (connections : List (String × Conn))
      (join_code : String)

/-- `ServerState::reset`: Running → Lobby for the next game, keeping the
options and join code and emptying the connection registry.  The source
panics on a non-Running state; the panic is modelled as `none`. -/
def ServerState.reset {Conn : Type} (s : ServerState Conn) (num_players : Nat) :
    Option (ServerState Conn) :=
  match s with
  | .Running game_state _ join_code =>
      some (.Lobby game_state.get_options num_players [] join_code)
  | .Lobby .. => none

/-! ## Spec-side definitions

Definitions phrased after the specification's wording, used to state the
claims about the source-translated definitions above. -/

/-- Spec-side: the board has no cards at all. -/
def boardAllEmpty (b : Board) : Prop := ∀ row ∈ b, ∀ cell ∈ row, cell = none

/-- Spec-side: the 8 neighbor offsets (4 orthogonal + 4 diagonal). -/
def neighborOffsets : List (Int × Int) :=
  [(-1, -1), (-1, 0), (-1, 1), (0, -1), (0, 1), (1, -1), (1, 0), (1, 1)]

/-- Spec-side: some in-bounds neighbor of `(r, c)` holds a card. -/
def hasOccupiedNeighbor (b : Board) (r c : Nat) : Prop :=
  ∃ d ∈ neighborOffsets,
    0 ≤ (r : Int) + d.1 ∧ (r : Int) + d.1 < (BOARD_SIZE : Int) ∧
    0 ≤ (c : Int) + d.2 ∧ (c : Int) + d.2 < (BOARD_SIZE : Int) ∧
    (getCell b ((r : Int) + d.1).toNat ((c : Int) + d.2).toNat).isSome = true

instance (b : Board) : Decidable (boardAllEmpty b) := by
  unfold boardAllEmpty
  exact List.decidableBAll _ b

instance (b : Board) (r c : Nat) : Decidable (hasOccupiedNeighbor b r c) := by
  unfold hasOccupiedNeighbor
  exact List.decidableBEx _ neighborOffsets

/-- Total number of cards on the board. -/
def boardCount (b : Board) : Nat :=
  (b.map fun row => row.countP fun cell => cell.isSome).sum

/-- Total number of cards held by the players (hands plus decks). -/
def totalCards (gs : GameState) : Nat :=
  boardCount gs.board +
    (gs.players.map fun p => p.2.hand.length + p.2.deck.length).sum

/-- The number of cards removed from play at deal time: in sequester mode
the extra virtual share plus the division remainder; zero otherwise. -/
def sequesteredCount (go : GameOptions) (n : Nat) : Nat :=
  if go.sequester_cards then 52 - n * (52 / (n + 1)) else 0

/-- A structurally well-formed board: `BOARD_SIZE` rows of `BOARD_SIZE`
cells, as every board built by the source is. -/
def Board.WF (b : Board) : Prop :=
  b.length = BOARD_SIZE ∧ ∀ row ∈ b, row.length = BOARD_SIZE

/-- Spec-side: the cell at distance `k` along ray `d` from `(r, c)`, in
board coordinates. -/
def cellAt (r c : Nat) (d : Int × Int) (k : Nat) : Nat × Nat :=
  ((posAt r c d k).1.toNat, (posAt r c d k).2.toNat)

/-- The cell at distance `k` along the ray holds a card satisfying the
predicate (`false` when empty or out of the board). -/
def cellMatches (b : Board) (r c : Nat) (d : Int × Int) (p : Card → Bool)
    (k : Nat) : Bool :=
  match getCell b (posAt r c d k).1.toNat (posAt r c d k).2.toNat with
  | some card => p card
  | none => false

/-- Spec-side: distance `k ≥ 1` along ray `d` lands in bounds on an
occupied cell whose card satisfies the predicate. -/
def rayMatch (b : Board) (r c : Nat) (d : Int × Int) (p : Card → Bool)
    (k : Nat) : Prop :=
  1 ≤ k ∧ inBoundsI (posAt r c d k).1 (posAt r c d k).2 = true ∧
    cellMatches b r c d p k = true

/-! ## Helper lemmas -/

lemma getCell_of_allEmpty (b : Board) (r c : Nat) (h : boardAllEmpty b) :
    getCell b r c = none := by
  unfold getCell
  rw [List.getD_eq_getElem?_getD, List.getD_eq_getElem?_getD]
  cases hrow : b[r]? with
  | none => simp
  | some row =>
    cases hcell : row[c]? with
    | none => simp [hcell]
    | some v =>
      have hm : v ∈ row := by
        obtain ⟨hlt, hv⟩ := List.getElem?_eq_some_iff.mp hcell
        exact hv ▸ List.getElem_mem hlt
      have hrm : row ∈ b := by
        obtain ⟨hlt, hv⟩ := List.getElem?_eq_some_iff.mp hrow
        exact hv ▸ List.getElem_mem hlt
      have := h row hrm v hm
      subst this
      simp [hcell]

lemma allEmpty_iff (b : Board) :
    (b.all fun board_row => board_row.all fun cell => cell.isNone) = true ↔
      boardAllEmpty b := by
  simp [boardAllEmpty, List.all_eq_true, Option.isNone_iff_eq_none]

lemma any_any_iff (p : Int → Int → Bool) :
    (([-1, 0, 1] : List Int).any fun dr =>
      ([-1, 0, 1] : List Int).any fun dc =>
        if dr = 0 && dc = 0 then false else p dr dc) = true ↔
      ∃ d ∈ neighborOffsets, p d.1 d.2 = true := by
  simp only [List.any_eq_true, neighborOffsets, List.mem_cons, List.not_mem_nil, or_false]
  constructor
  · rintro ⟨dr, hdr, dc, hdc, h⟩
    rcases hdr with rfl | rfl | rfl <;> rcases hdc with rfl | rfl | rfl <;> simp_all
  · rintro ⟨d, hd, h⟩
    rcases hd with rfl | rfl | rfl | rfl | rfl | rfl | rfl | rfl <;>
      first
      | exact ⟨-1, by simp, -1, by simp, by simpa using h⟩
      | exact ⟨-1, by simp, 0, by simp, by simpa using h⟩
      | exact ⟨-1, by simp, 1, by simp, by simpa using h⟩
      | exact ⟨0, by simp, -1, by simp, by simpa using h⟩
      | exact ⟨0, by simp, 1, by simp, by simpa using h⟩
      | exact ⟨1, by simp, -1, by simp, by simpa using h⟩
      | exact ⟨1, by simp, 0, by simp, by simpa using h⟩
      | exact ⟨1, by simp, 1, by simp, by simpa using h⟩

lemma can_play_at_oob_occ (b : Board) (r c : Nat)
    (h : r ≥ BOARD_SIZE ∨ c ≥ BOARD_SIZE ∨ getCell b r c ≠ none) :
    b.can_play_at r c = false := by
  unfold Board.can_play_at
  rcases h with h | h | h
  · simp [h]
  · simp [h]
  · have hs : (getCell b r c).isSome = true := by
      cases hcell : getCell b r c with
      | none => exact absurd hcell h
      | some _ => rfl
    by_cases hb : r ≥ BOARD_SIZE
    · simp [hb]
    · by_cases hb2 : c ≥ BOARD_SIZE
      · simp [hb2]
      · simp [hb, hb2, hs]

lemma can_play_at_empty (b : Board) (r c : Nat) (hall : boardAllEmpty b) :
    b.can_play_at r c = true ↔ r = BOARD_SIZE / 2 ∧ c = BOARD_SIZE / 2 := by
  by_cases hr : r ≥ BOARD_SIZE
  · rw [can_play_at_oob_occ b r c (Or.inl hr)]
    simp only [Bool.false_eq_true, false_iff]
    rintro ⟨rfl, rfl⟩
    simp [BOARD_SIZE] at hr
  · by_cases hc : c ≥ BOARD_SIZE
    · rw [can_play_at_oob_occ b r c (Or.inr (Or.inl hc))]
      simp only [Bool.false_eq_true, false_iff]
      rintro ⟨rfl, rfl⟩
      simp [BOARD_SIZE] at hc
    · unfold Board.can_play_at
      simp [hr, hc, getCell_of_allEmpty b r c hall, (allEmpty_iff b).mpr hall]

lemma can_play_at_nonempty (b : Board) (r c : Nat) (hall : ¬ boardAllEmpty b) :
    b.can_play_at r c = true ↔
      r < BOARD_SIZE ∧ c < BOARD_SIZE ∧ getCell b r c = none ∧
        hasOccupiedNeighbor b r c := by
  have hne : (b.all fun board_row => board_row.all fun cell => cell.isNone) = false := by
    rw [← Bool.not_eq_true]
    intro h
    exact hall ((allEmpty_iff b).mp h)
  by_cases hr : r ≥ BOARD_SIZE
  · rw [can_play_at_oob_occ b r c (Or.inl hr)]
    simp only [Bool.false_eq_true, false_iff]
    rintro ⟨h1, _⟩
    omega
  · by_cases hc : c ≥ BOARD_SIZE
    · rw [can_play_at_oob_occ b r c (Or.inr (Or.inl hc))]
      simp only [Bool.false_eq_true, false_iff]
      rintro ⟨_, h1, _⟩
      omega
    · by_cases hocc : (getCell b r c).isSome
      · rw [can_play_at_oob_occ b r c (Or.inr (Or.inr (by
          intro h2
          rw [h2] at hocc
          simp at hocc)))]
        simp only [Bool.false_eq_true, false_iff]
        rintro ⟨_, _, h1, _⟩
        rw [h1] at hocc
        simp at hocc
      · have hcell : getCell b r c = none := Option.not_isSome_iff_eq_none.mp hocc
        unfold Board.can_play_at
        simp only [ge_iff_le, hr, hc, hocc, hne, Bool.false_eq_true, if_false,
          decide_eq_true_eq, ite_false, decide_False, Bool.or_self]
        rw [any_any_iff]
        simp only [hcell, true_and]
        unfold hasOccupiedNeighbor
        constructor
        · rintro ⟨d, hd, h⟩
          refine ⟨by omega, by omega, d, hd, ?_⟩
          simp only [Bool.and_eq_true, decide_eq_true_eq, Option.isSome_iff_exists] at h
          obtain ⟨⟨⟨⟨h1, h2⟩, h3⟩, h4⟩, h5⟩ := h
          exact ⟨h1, h2, h3, h4, by simpa [Option.isSome_iff_exists] using h5⟩
        · rintro ⟨_, _, d, hd, h1, h2, h3, h4, h5⟩
          refine ⟨d, hd, ?_⟩
          simp only [Bool.and_eq_true, decide_eq_true_eq]
          exact ⟨⟨⟨⟨h1, h2⟩, h3⟩, h4⟩, h5⟩

lemma sum_map_set {α : Type} (l : List α) (i : Nat) (x : α) (f : α → Nat)
    (h : i < l.length) :
    ((l.set i x).map f).sum + f l[i] = (l.map f).sum + f x := by
  induction l generalizing i with
  | nil => simp at h
  | cons a t ih =>
    cases i with
    | zero => simp [List.set_cons_zero]; omega
    | succ j =>
      simp only [List.set_cons_succ, List.map_cons, List.sum_cons, List.getElem_cons_succ]
      have := ih j (by simpa using h)
      omega

lemma countP_eq_sum_map {α : Type} (l : List α) (p : α → Bool) :
    l.countP p = (l.map fun a => if p a then 1 else 0).sum := by
  induction l with
  | nil => simp
  | cons a t ih =>
    by_cases h : p a
    · simp [List.countP_cons, h, ih]
      omega
    · simp [List.countP_cons, h, ih]

lemma countP_set {α : Type} (l : List α) (i : Nat) (x : α) (p : α → Bool)
    (h : i < l.length) :
    (l.set i x).countP p + (if p l[i] then 1 else 0) =
      l.countP p + (if p x then 1 else 0) := by
  rw [countP_eq_sum_map, countP_eq_sum_map]
  exact sum_map_set l i x _ h

lemma getCell_isSome_bounds (b : Board) (r c : Nat)
    (h : (getCell b r c).isSome = true) :
    r < b.length ∧ c < (b.getD r []).length := by
  unfold getCell at h
  constructor
  · by_contra hr
    rw [List.getD_eq_default _ _ (Nat.le_of_not_lt hr)] at h
    simp [List.getD] at h
  · by_contra hc
    rw [List.getD_eq_default _ _ (Nat.le_of_not_lt hc)] at h
    simp at h

lemma getCell_eq_getD_getElem (b : Board) (r c : Nat) (h : r < b.length) :
    getCell b r c = (b[r].getD c none) := by
  unfold getCell
  rw [List.getD_eq_getElem _ _ h]

lemma boardCount_setCell (b : Board) (r c : Nat) (v : Option Card)
    (hr : r < b.length) (hc : c < (b.getD r []).length) :
    boardCount (setCell b r c v) + (if (getCell b r c).isSome then 1 else 0) =
      boardCount b + (if v.isSome then 1 else 0) := by
  unfold setCell boardCount
  have hrow : b.getD r [] = b[r] := List.getD_eq_getElem _ _ hr
  have h1 := sum_map_set b r ((b.getD r []).set c v)
    (fun row => row.countP fun cell => cell.isSome) hr
  have h2 := countP_set (b.getD r []) c v (fun cell => cell.isSome) hc
  have hcell : getCell b r c = (b.getD r [])[c] := by
    unfold getCell
    exact List.getD_eq_getElem _ _ hc
  rw [← hrow] at h1
  rw [hcell]
  by_cases ha : ((b.getD r [])[c]).isSome <;> by_cases hb : v.isSome <;>
    simp only [ha, hb, if_true, if_false, ite_true, ite_false] at h2 ⊢ <;> omega

lemma getCell_setCell (b : Board) (r c : Nat) (v : Option Card)
    (hr : r < b.length) (hc : c < (b.getD r []).length) (r2 c2 : Nat) :
    getCell (setCell b r c v) r2 c2 =
      if r2 = r ∧ c2 = c then v else getCell b r2 c2 := by
  unfold setCell getCell
  simp only [List.getD_eq_getElem?_getD] at hc ⊢
  by_cases h2 : r2 = r
  · subst h2
    rw [List.getElem?_set_self (by simpa using hr)]
    simp only [Option.getD_some]
    by_cases h3 : c2 = c
    · subst h3
      rw [List.getElem?_set_self (by simpa using hc)]
      simp
    · rw [List.getElem?_set_ne (fun hh => h3 hh.symm)]
      simp [h3]
  · rw [List.getElem?_set_ne (fun hh => h2 hh.symm)]
    simp [h2]

lemma takeCells_boardCount (ps : List (Nat × Nat)) (b : Board) :
    boardCount (takeCells b ps).1 + (takeCells b ps).2.length = boardCount b := by
  induction ps generalizing b with
  | nil => simp [takeCells]
  | cons p ps ih =>
    unfold takeCells
    cases hcell : getCell b p.1 p.2 with
    | none => exact ih b
    | some c =>
      have hs : (getCell b p.1 p.2).isSome = true := by rw [hcell]; rfl
      obtain ⟨hr, hc⟩ := getCell_isSome_bounds b p.1 p.2 hs
      have hbc := boardCount_setCell b p.1 p.2 none hr hc
      simp [hcell] at hbc
      simp only [List.length_cons]
      have := ih (setCell b p.1 p.2 none)
      omega

lemma takeCells_length (ps : List (Nat × Nat)) (b : Board) :
    (takeCells b ps).2.length =
      (ps.toFinset.filter fun q => (getCell b q.1 q.2).isSome = true).card := by
  induction ps generalizing b with
  | nil => simp [takeCells]
  | cons p ps ih =>
    unfold takeCells
    rw [List.toFinset_cons]
    cases hcell : getCell b p.1 p.2 with
    | none =>
      rw [Finset.filter_insert]
      have : ¬ ((getCell b p.1 p.2).isSome = true) := by simp [hcell]
      rw [if_neg this]
      exact ih b
    | some c =>
      have hs : (getCell b p.1 p.2).isSome = true := by rw [hcell]; rfl
      obtain ⟨hr, hc⟩ := getCell_isSome_bounds b p.1 p.2 hs
      rw [Finset.filter_insert, if_pos hs]
      simp only [List.length_cons]
      rw [ih (setCell b p.1 p.2 none)]
      have hfe : (ps.toFinset.filter fun q =>
          (getCell (setCell b p.1 p.2 none) q.1 q.2).isSome = true) =
          (ps.toFinset.filter fun q => (getCell b q.1 q.2).isSome = true).erase p := by
        ext q
        simp only [Finset.mem_filter, Finset.mem_erase, List.mem_toFinset]
        rw [getCell_setCell b p.1 p.2 none hr hc q.1 q.2]
        constructor
        · rintro ⟨hm, hocc⟩
          by_cases hq : q = p
          · subst hq
            simp at hocc
          · rw [if_neg (fun hh => hq (Prod.ext_iff.mpr hh))] at hocc
            exact ⟨hq, hm, hocc⟩
        · rintro ⟨hq, hm, hocc⟩
          refine ⟨hm, ?_⟩
          rw [if_neg (fun hh => hq (Prod.ext_iff.mpr hh))]
          exact hocc
      rw [hfe]
      by_cases hp : p ∈ ps.toFinset.filter fun q => (getCell b q.1 q.2).isSome = true
      · rw [Finset.card_erase_of_mem hp, Finset.card_insert_of_mem hp]
        have : 0 < (ps.toFinset.filter fun q => (getCell b q.1 q.2).isSome = true).card :=
          Finset.card_pos.mpr ⟨p, hp⟩
        omega
      · rw [Finset.erase_eq_of_not_mem hp, Finset.card_insert_of_not_mem hp]

lemma refill_sum (d h : List Card) :
    (refill h d).1.length + (refill h d).2.length = h.length + d.length := by
  induction d generalizing h with
  | nil => simp [refill]
  | cons c rest ih =>
    unfold refill
    by_cases hl : h.length < HAND_SIZE
    · rw [if_pos hl]
      have h2 := ih (h ++ [c])
      simp only [List.length_append, List.length_cons, List.length_nil] at h2 ⊢
      omega
    · rw [if_neg hl]

lemma apply_move_fail (shuffle : List Card → List Card) (gs : GameState) (m : PlayerMove)
    (h : (gs.players.getD gs.turn dfltPlayer).2.hand.length ≤ m.card ∨
      gs.board.can_play_at m.location.1 m.location.2 = false) :
    GameState.apply_move shuffle gs m = (false, gs) := by
  unfold GameState.apply_move
  rcases h with h | h
  · rw [if_pos h]
  · by_cases h1 : (gs.players.getD gs.turn dfltPlayer).2.hand.length ≤ m.card
    · rw [if_pos h1]
    · rw [if_neg h1, if_pos (by simp [h])]

lemma apply_move_success (shuffle : List Card → List Card) (gs : GameState)
    (m : PlayerMove)
    (h1 : m.card < (gs.players.getD gs.turn dfltPlayer).2.hand.length)
    (h2 : gs.board.can_play_at m.location.1 m.location.2 = true) :
    GameState.apply_move shuffle gs m =
      (true,
       { game_options := gs.game_options
       , board := boardAfterTake gs m
       , players := gs.players.set gs.turn
           ((gs.players.getD gs.turn dfltPlayer).1,
            ⟨(refill (handAfterPlay gs m) (deckAfterCapture shuffle gs m)).1,
             (refill (handAfterPlay gs m) (deckAfterCapture shuffle gs m)).2⟩)
       , turn :=
           findTurn
             (gs.players.set gs.turn
               ((gs.players.getD gs.turn dfltPlayer).1,
                ⟨(refill (handAfterPlay gs m) (deckAfterCapture shuffle gs m)).1,
                 (refill (handAfterPlay gs m) (deckAfterCapture shuffle gs m)).2⟩))
             (gs.players.set gs.turn
               ((gs.players.getD gs.turn dfltPlayer).1,
                ⟨(refill (handAfterPlay gs m) (deckAfterCapture shuffle gs m)).1,
                 (refill (handAfterPlay gs m) (deckAfterCapture shuffle gs m)).2⟩)).length
             ((gs.turn + 1) % (gs.players.set gs.turn
               ((gs.players.getD gs.turn dfltPlayer).1,
                ⟨(refill (handAfterPlay gs m) (deckAfterCapture shuffle gs m)).1,
                 (refill (handAfterPlay gs m) (deckAfterCapture shuffle gs m)).2⟩)).length) }) := by
  unfold GameState.apply_move
  rw [if_neg (by omega), if_neg (by simp [h2])]

lemma can_play_at_true_bounds (b : Board) (r c : Nat)
    (h : b.can_play_at r c = true) :
    r < BOARD_SIZE ∧ c < BOARD_SIZE ∧ getCell b r c = none := by
  by_contra hcon
  have : r ≥ BOARD_SIZE ∨ c ≥ BOARD_SIZE ∨ getCell b r c ≠ none := by
    push_neg at hcon
    by_cases ha : r < BOARD_SIZE
    · by_cases hb : c < BOARD_SIZE
      · exact Or.inr (Or.inr (hcon ha hb))
      · omega
    · omega
  rw [can_play_at_oob_occ b r c this] at h
  simp at h

lemma totalCards_apply_move (shuffle : List Card → List Card) (gs : GameState)
    (m : PlayerMove) (hturn : gs.turn < gs.players.length) (hwf : gs.board.WF)
    (hperm : ∀ l, (shuffle l).Perm l) :
    totalCards (GameState.apply_move shuffle gs m).2 = totalCards gs := by
  by_cases h1 : (gs.players.getD gs.turn dfltPlayer).2.hand.length ≤ m.card
  · rw [apply_move_fail shuffle gs m (Or.inl h1)]
  · by_cases h2 : gs.board.can_play_at m.location.1 m.location.2
    · rw [apply_move_success shuffle gs m (by omega) h2]
      obtain ⟨hr11, hc11, hcell⟩ :=
        can_play_at_true_bounds gs.board m.location.1 m.location.2 h2
      have hr : m.location.1 < gs.board.length := by rw [hwf.1]; exact hr11
      have hc : m.location.2 < (gs.board.getD m.location.1 []).length := by
        have hmem : gs.board.getD m.location.1 [] ∈ gs.board := by
          rw [List.getD_eq_getElem _ _ hr]
          exact List.getElem_mem hr
        rw [hwf.2 _ hmem]
        exact hc11
      -- the placement adds one card to the board
      have hplace := boardCount_setCell gs.board m.location.1 m.location.2
        (some (playedCard gs m)) hr hc
      rw [hcell] at hplace
      simp only [Option.isSome_none, Option.isSome_some, if_true, if_false,
        Bool.false_eq_true, ite_true, ite_false] at hplace
      -- taking removes exactly the taken cards
      have htake := takeCells_boardCount (capturedPositions gs m) (boardAfterPlay gs m)
      -- the players list changes only at the acting player
      have hset := sum_map_set gs.players gs.turn
        ((gs.players.getD gs.turn dfltPlayer).1,
         ⟨(refill (handAfterPlay gs m) (deckAfterCapture shuffle gs m)).1,
          (refill (handAfterPlay gs m) (deckAfterCapture shuffle gs m)).2⟩)
        (fun p => p.2.hand.length + p.2.deck.length) hturn
      have hgetd : gs.players.getD gs.turn dfltPlayer = gs.players[gs.turn] :=
        List.getD_eq_getElem _ _ hturn
      -- the refill preserves hand+deck total
      have hrefill := refill_sum (deckAfterCapture shuffle gs m) (handAfterPlay gs m)
      have herase : (handAfterPlay gs m).length =
          (gs.players.getD gs.turn dfltPlayer).2.hand.length - 1 := by
        unfold handAfterPlay
        exact List.length_eraseIdx_of_lt (by omega)
      have hdeck : (deckAfterCapture shuffle gs m).length =
          (gs.players.getD gs.turn dfltPlayer).2.deck.length +
            (takenCards gs m).length := by
        unfold deckAfterCapture
        rw [List.length_append, (hperm (takenCards gs m)).length_eq]
      unfold totalCards at *
      unfold boardAfterTake at *
      unfold takenCards at *
      unfold boardAfterPlay at *
      dsimp only at hset ⊢
      rw [← hgetd] at hset
      omega
    · rw [apply_move_fail shuffle gs m (Or.inr (by simpa using h2))]

lemma dealShare_count (deck : List Card) (s t : Nat) :
    (dealShare deck s t).hand.length + (dealShare deck s t).deck.length =
      min (t - s) (deck.length - s) := by
  unfold dealShare
  simp [List.length_take, List.length_drop]
  omega

lemma enumFrom_map_fst {α β : Type} (l : List α) (k : Nat) (g : Nat → β) :
    (List.enumFrom k l).map (fun p => g p.1) = (List.range' k l.length).map g := by
  induction l generalizing k with
  | nil => rfl
  | cons a t ih =>
    simp only [List.enumFrom, List.map_cons, List.length_cons]
    rw [show List.range' k (t.length + 1) = k :: List.range' (k + 1) t.length from rfl]
    simp only [List.map_cons]
    rw [ih (k + 1)]

lemma sum_map_add_distrib (n : Nat) (f g : Nat → Nat) :
    ((List.range n).map fun i => f i + g i).sum =
      ((List.range n).map f).sum + ((List.range n).map g).sum := by
  induction n with
  | zero => rfl
  | succ k ih =>
    simp only [List.range_succ, List.map_append, List.sum_append, ih, List.map_cons,
      List.map_nil, List.sum_cons, List.sum_nil]
    omega

lemma sum_map_const (n c : Nat) : ((List.range n).map fun _ => c).sum = n * c := by
  induction n with
  | zero => simp
  | succ k ih =>
    simp only [List.range_succ, List.map_append, List.sum_append, ih, List.map_cons,
      List.map_nil, List.sum_cons, List.sum_nil, Nat.succ_mul]
    omega

lemma sum_map_indicator (l : List Nat) (extras : List Nat) :
    (l.map fun i => if i ∈ extras then 1 else 0).sum =
      (l.filter fun i => decide (i ∈ extras)).length := by
  induction l with
  | nil => rfl
  | cons a t ih =>
    by_cases h : a ∈ extras <;> simp [h, ih, List.filter_cons] <;> omega

lemma filter_range_mem_length (n : Nat) (extras : List Nat) (hnodup : extras.Nodup)
    (hlt : ∀ x ∈ extras, x < n) :
    ((List.range n).filter fun i => decide (i ∈ extras)).length = extras.length := by
  have hperm : ((List.range n).filter fun i => decide (i ∈ extras)).Perm extras := by
    apply (List.perm_ext_iff_of_nodup (List.Nodup.filter _ (List.nodup_range n)) hnodup).mpr
    intro a
    simp only [List.mem_filter, List.mem_range, decide_eq_true_eq]
    exact ⟨fun h => h.2, fun h => ⟨hlt a h, h⟩⟩
  exact hperm.length_eq

lemma boardCount_emptyBoard : boardCount emptyBoard = 0 := by decide

lemma totalCards_new (player_names : List String) (go : GameOptions) (deck : List Card)
    (extras : List Nat) (hlen : deck.length = 52) (hnodup : extras.Nodup)
    (hlt : ∀ x ∈ extras, x < player_names.length)
    (hext : extras.length = 52 % player_names.length) (hn : 1 ≤ player_names.length) :
    totalCards (GameState.new player_names go deck extras) +
      sequesteredCount go player_names.length = 52 := by
  unfold GameState.new totalCards sequesteredCount
  rw [boardCount_emptyBoard, hlen]
  by_cases hseq : go.sequester_cards
  · simp only [hseq, if_true, ite_true]
    set n := player_names.length with hn2
    set cpp := 52 / (n + 1) with hcpp
    set sz : Nat → Nat :=
      fun i => min ((i + 1) * cpp - i * cpp) (52 - i * cpp) with hsz
    clear_value sz cpp n
    rw [List.map_map]
    have hcongr : (player_names.enum.map
        ((fun p => p.2.hand.length + p.2.deck.length) ∘
          (fun q => (q.2, dealShare deck (q.1 * cpp) ((q.1 + 1) * cpp))))) =
        player_names.enum.map (fun q => sz q.1) := by
      apply List.map_eq_map_iff.mpr
      rintro ⟨i, name⟩ _
      simp only [Function.comp, hsz]
      have := dealShare_count deck (i * cpp) ((i + 1) * cpp)
      rw [hlen] at this
      exact this
    rw [hcongr, List.enum, enumFrom_map_fst, ← List.range_eq_range', ← hn2]
    have hmul : (n + 1) * cpp ≤ 52 := by
      rw [hcpp, Nat.mul_comm]
      exact Nat.div_mul_le_self 52 (n + 1)
    have hcongr2 : (List.range n).map sz = (List.range n).map fun _ => cpp := by
      apply List.map_eq_map_iff.mpr
      intro i hi
      rw [List.mem_range] at hi
      have h1 : (i + 1) * cpp = i * cpp + cpp := Nat.succ_mul i cpp
      have h2 : (i + 1) * cpp ≤ n * cpp := Nat.mul_le_mul_right cpp (by omega)
      have h3 : n * cpp ≤ (n + 1) * cpp := Nat.mul_le_mul_right cpp (by omega)
      simp only [hsz]
      omega
    rw [hcongr2, sum_map_const]
    have h3 : n * cpp ≤ (n + 1) * cpp := Nat.mul_le_mul_right cpp (by omega)
    omega
  · simp only [hseq, if_false, ite_false, Bool.false_eq_true]
    set n := player_names.length with hn2
    set cpp := 52 / n with hcpp
    set sz : Nat → Nat := fun i =>
      min ((i + 1) * cpp + (if i ∈ extras then 1 else 0) - i * cpp)
        (52 - i * cpp) with hsz
    clear_value sz cpp n
    rw [List.map_map]
    have hcongr : (player_names.enum.map
        ((fun p => p.2.hand.length + p.2.deck.length) ∘
          (fun q => (q.2, dealShare deck (q.1 * cpp)
            ((q.1 + 1) * cpp + (if q.1 ∈ extras then 1 else 0)))))) =
        player_names.enum.map (fun q => sz q.1) := by
      apply List.map_eq_map_iff.mpr
      rintro ⟨i, name⟩ _
      simp only [Function.comp, hsz]
      have := dealShare_count deck (i * cpp) ((i + 1) * cpp + (if i ∈ extras then 1 else 0))
      rw [hlen] at this
      exact this
    rw [hcongr, List.enum, enumFrom_map_fst, ← List.range_eq_range', ← hn2]
    have hdm : n * cpp + 52 % n = 52 := by
      rw [hcpp]
      have := Nat.div_add_mod 52 n
      omega
    have hcongr2 : (List.range n).map sz =
        (List.range n).map fun i => cpp + (if i ∈ extras then 1 else 0) := by
      apply List.map_eq_map_iff.mpr
      intro i hi
      rw [List.mem_range] at hi
      have h1 : (i + 1) * cpp = i * cpp + cpp := Nat.succ_mul i cpp
      have h2 : (i + 1) * cpp ≤ n * cpp := Nat.mul_le_mul_right cpp (by omega)
      have h4 : (if i ∈ extras then 1 else 0) ≤ 52 % n := by
        by_cases hm : i ∈ extras
        · have hone : 1 ≤ extras.length := by
            cases hx : extras with
            | nil =>
              rw [hx] at hm
              simp at hm
            | cons a t => simp
          simp only [hm, if_true, ite_true]
          omega
        · simp [hm]
      simp only [hsz]
      by_cases hm : i ∈ extras <;>
        simp only [hm, if_true, if_false, ite_true, ite_false] at h4 ⊢ <;> omega
    rw [hcongr2, sum_map_add_distrib, sum_map_const, sum_map_indicator,
      filter_range_mem_length n extras hnodup hlt]
    omega

lemma apply_move_frame (shuffle : List Card → List Card) (gs : GameState)
    (m : PlayerMove) :
    (GameState.apply_move shuffle gs m).2.game_options = gs.game_options ∧
      (GameState.apply_move shuffle gs m).2.players.length = gs.players.length := by
  by_cases h1 : (gs.players.getD gs.turn dfltPlayer).2.hand.length ≤ m.card
  · rw [apply_move_fail shuffle gs m (Or.inl h1)]
    exact ⟨rfl, rfl⟩
  · by_cases h2 : gs.board.can_play_at m.location.1 m.location.2
    · rw [apply_move_success shuffle gs m (by omega) h2]
      exact ⟨rfl, by simp⟩
    · rw [apply_move_fail shuffle gs m (Or.inr (by simpa using h2))]
      exact ⟨rfl, rfl⟩

lemma takeCells_none_mono (ps : List (Nat × Nat)) (b : Board) (q : Nat × Nat)
    (h : getCell b q.1 q.2 = none) :
    getCell (takeCells b ps).1 q.1 q.2 = none := by
  induction ps generalizing b with
  | nil => exact h
  | cons p ps ih =>
    unfold takeCells
    cases hcell : getCell b p.1 p.2 with
    | none => exact ih b h
    | some c =>
      obtain ⟨hr, hc⟩ := getCell_isSome_bounds b p.1 p.2 (by rw [hcell]; rfl)
      apply ih
      rw [getCell_setCell b p.1 p.2 none hr hc]
      by_cases hq : q.1 = p.1 ∧ q.2 = p.2
      · rw [if_pos hq]
      · rw [if_neg hq]
        exact h

lemma takeCells_clears (ps : List (Nat × Nat)) (b : Board) (q : Nat × Nat)
    (hq : q ∈ ps) :
    getCell (takeCells b ps).1 q.1 q.2 = none := by
  induction ps generalizing b with
  | nil => simp at hq
  | cons p ps ih =>
    unfold takeCells
    cases hcell : getCell b p.1 p.2 with
    | none =>
      rcases List.mem_cons.mp hq with rfl | hq2
      · exact takeCells_none_mono ps b q hcell
      · exact ih b hq2
    | some c =>
      obtain ⟨hr, hc⟩ := getCell_isSome_bounds b p.1 p.2 (by rw [hcell]; rfl)
      rcases List.mem_cons.mp hq with rfl | hq2
      · apply takeCells_none_mono
        rw [getCell_setCell b q.1 q.2 none hr hc q.1 q.2]
        simp
      · exact ih (setCell b p.1 p.2 none) hq2

lemma refill_eq (d h : List Card) :
    refill h d = (h ++ d.take (HAND_SIZE - h.length), d.drop (HAND_SIZE - h.length)) := by
  induction d generalizing h with
  | nil => simp [refill]
  | cons c rest ih =>
    unfold refill
    by_cases hl : h.length < HAND_SIZE
    · rw [if_pos hl, ih (h ++ [c])]
      have h5 : HAND_SIZE - h.length = (HAND_SIZE - (h.length + 1)) + 1 := by omega
      rw [h5]
      simp [List.take_succ_cons, List.drop_succ_cons, List.append_assoc]
    · rw [if_neg hl]
      have h5 : HAND_SIZE - h.length = 0 := by omega
      rw [h5]
      simp

lemma findTurn_first (players : List (String × PlayerState)) (j : Nat) :
    ∀ (fuel t : Nat), t < players.length → j < fuel →
    (players.getD ((t + j) % players.length) dfltPlayer).2.has_cards = true →
    (∀ i, i < j → (players.getD ((t + i) % players.length) dfltPlayer).2.has_cards = false) →
    findTurn players fuel t = (t + j) % players.length := by
  induction j with
  | zero =>
    intro fuel t ht hfuel hhas _
    cases fuel with
    | zero => omega
    | succ f =>
      simp only [Nat.add_zero] at hhas ⊢
      rw [Nat.mod_eq_of_lt ht] at hhas ⊢
      unfold findTurn
      rw [if_pos hhas]
  | succ j ih =>
    intro fuel t ht hfuel hhas hmin
    cases fuel with
    | zero => omega
    | succ f =>
      have h0 : (players.getD t dfltPlayer).2.has_cards = false := by
        have := hmin 0 (by omega)
        rwa [Nat.add_zero, Nat.mod_eq_of_lt ht] at this
      unfold findTurn
      rw [if_neg (by rw [h0]; simp)]
      have hn : 0 < players.length := by omega
      have hmod : ∀ k : Nat, ((t + 1) % players.length + k) % players.length =
          (t + 1 + k) % players.length := fun k => Nat.mod_add_mod (t + 1) players.length k
      have happ := ih f ((t + 1) % players.length) (Nat.mod_lt _ hn) (by omega)
        (by rw [hmod j, show t + 1 + j = t + (j + 1) by omega]; exact hhas)
        (fun i hi => by
          rw [hmod i, show t + 1 + i = t + (i + 1) by omega]
          exact hmin (i + 1) (by omega))
      rw [happ, hmod j, show t + 1 + j = t + (j + 1) by omega]

lemma exists_cycle_offset (n t0 i : Nat) (ht : t0 < n) (hi : i < n) :
    ∃ j, j < n ∧ (t0 + j) % n = i := by
  by_cases h : t0 ≤ i
  · exact ⟨i - t0, by omega, by rw [show t0 + (i - t0) = i by omega, Nat.mod_eq_of_lt hi]⟩
  · refine ⟨i + n - t0, by omega, ?_⟩
    rw [show t0 + (i + n - t0) = i + n by omega, Nat.add_mod_right, Nat.mod_eq_of_lt hi]

lemma countP_set_ge {α : Type} (l : List α) (i : Nat) (x : α) (p : α → Bool)
    (h : i < l.length) :
    l.countP p ≤ (l.set i x).countP p + 1 := by
  have hcp := countP_set l i x p h
  have h1 : (if p l[i] then 1 else 0) ≤ 1 := by split <;> omega
  have h2 : (0 : Nat) ≤ (if p x then 1 else 0) := by omega
  omega

lemma apply_move_true_cond (shuffle : List Card → List Card) (gs : GameState)
    (m : PlayerMove) (hsucc : (GameState.apply_move shuffle gs m).1 = true) :
    m.card < (gs.players.getD gs.turn dfltPlayer).2.hand.length ∧
      gs.board.can_play_at m.location.1 m.location.2 = true := by
  by_cases h1 : (gs.players.getD gs.turn dfltPlayer).2.hand.length ≤ m.card
  · rw [apply_move_fail shuffle gs m (Or.inl h1)] at hsucc
    simp at hsucc
  · by_cases h2 : gs.board.can_play_at m.location.1 m.location.2
    · exact ⟨by omega, h2⟩
    · rw [apply_move_fail shuffle gs m (Or.inr (by simpa using h2))] at hsucc
      simp at hsucc

lemma foldl_keep_last (mt : Nat → Bool) :
    ∀ (l : List Nat) (init : Option Nat),
    l.foldl (fun found k => if mt k then some k else found) init =
      ((l.filter mt).getLast?).elim init some := by
  intro l
  induction l with
  | nil => intro init; rfl
  | cons a t ih =>
    intro init
    rw [List.foldl_cons, ih, List.filter_cons]
    by_cases h : mt a
    · rw [if_pos h, if_pos h]
      cases hft : t.filter mt with
      | nil => simp
      | cons b bs =>
        cases hgl : (b :: bs).getLast? with
        | none => exact absurd (List.getLast?_eq_none_iff.mp hgl) (by simp)
        | some v => simp [hgl]
    · rw [if_neg h, if_neg h]

lemma fail_propagates (p : Nat → Bool) (s : Nat)
    (hclo : ∀ j, p (j + 1) = true → p j = true) (hs : p s = false) :
    ∀ t, s ≤ t → p t = false := by
  intro t
  induction t with
  | zero =>
    intro h
    exact Nat.le_zero.mp h ▸ hs
  | succ u ih =>
    intro h
    rcases Nat.lt_or_ge s (u + 1) with h2 | h2
    · have hu := ih (by omega)
      rw [← Bool.not_eq_true]
      intro hcon
      rw [hclo u hcon] at hu
      simp at hu
    · have : s = u + 1 := by omega
      exact this ▸ hs

lemma takeWhile_eq_filter (p : Nat → Bool)
    (hclo : ∀ j, p (j + 1) = true → p j = true) :
    ∀ (n s : Nat), (List.range' s n).takeWhile p = (List.range' s n).filter p := by
  intro n
  induction n with
  | zero => intro s; rfl
  | succ m ih =>
    intro s
    rw [show List.range' s (m + 1) = s :: List.range' (s + 1) m from rfl]
    by_cases h : p s
    · rw [List.takeWhile_cons_of_pos h, List.filter_cons_of_pos h, ih (s + 1)]
    · rw [List.takeWhile_cons_of_neg (by simp [h]), List.filter_cons_of_neg (by simp [h])]
      symm
      rw [List.filter_eq_nil_iff]
      intro a ha
      rw [List.mem_range'_1] at ha
      have := fail_propagates p s hclo (by simpa using h) a (by omega)
      simp [this]

lemma getLast?_eq_max (l : List Nat) (hs : l.Pairwise (· < ·)) (k : Nat) :
    l.getLast? = some k ↔ k ∈ l ∧ ∀ j ∈ l, j ≤ k := by
  induction l with
  | nil => simp
  | cons a t ih =>
    cases t with
    | nil =>
      simp only [List.getLast?_singleton, Option.some_inj, List.mem_singleton]
      constructor
      · rintro rfl
        exact ⟨rfl, fun j hj => by omega⟩
      · rintro ⟨rfl, _⟩
        rfl
    | cons b bs =>
      rw [show (a :: b :: bs).getLast? = (b :: bs).getLast? from rfl]
      have hpt : (b :: bs).Pairwise (· < ·) := hs.of_cons
      have halt : ∀ j ∈ b :: bs, a < j := fun j hj => (List.pairwise_cons.mp hs).1 j hj
      rw [ih hpt]
      constructor
      · rintro ⟨hk, hmax⟩
        refine ⟨List.mem_cons_of_mem a hk, ?_⟩
        intro j hj
        rcases List.mem_cons.mp hj with rfl | hj2
        · exact Nat.le_of_lt (halt k hk)
        · exact hmax j hj2
      · rintro ⟨hk, hmax⟩
        rcases List.mem_cons.mp hk with rfl | hk2
        · exfalso
          have hb := halt b (by simp)
          have := hmax b (by simp)
          omega
        · exact ⟨hk2, fun j hj => hmax j (List.mem_cons_of_mem a hj)⟩

lemma dir_closure (d : Int × Int) (hd : d ∈ directions) (r c : Nat)
    (hr : r < BOARD_SIZE) (hc : c < BOARD_SIZE) (j : Nat)
    (h : inBoundsI (posAt r c d (j + 1)).1 (posAt r c d (j + 1)).2 = true) :
    inBoundsI (posAt r c d j).1 (posAt r c d j).2 = true := by
  simp only [directions, List.mem_cons, List.not_mem_nil, or_false] at hd
  simp only [BOARD_SIZE] at hr hc
  rcases hd with rfl | rfl | rfl | rfl | rfl | rfl | rfl | rfl <;>
    (simp only [inBoundsI, posAt, BOARD_SIZE, Bool.and_eq_true, decide_eq_true_eq] at h ⊢
     push_cast at h ⊢
     omega)

lemma dir_bound (d : Int × Int) (hd : d ∈ directions) (r c : Nat)
    (hr : r < BOARD_SIZE) (hc : c < BOARD_SIZE) (k : Nat)
    (h : inBoundsI (posAt r c d k).1 (posAt r c d k).2 = true) :
    k ≤ BOARD_SIZE := by
  simp only [directions, List.mem_cons, List.not_mem_nil, or_false] at hd
  simp only [BOARD_SIZE] at hr hc ⊢
  rcases hd with rfl | rfl | rfl | rfl | rfl | rfl | rfl | rfl <;>
    (simp only [inBoundsI, posAt, BOARD_SIZE, Bool.and_eq_true, decide_eq_true_eq] at h
     push_cast at h
     omega)

lemma rayScan_eq_getLast (b : Board) (r c : Nat) (d : Int × Int) (p : Card → Bool) :
    rayScan b r c d p =
      ((((List.range' 1 BOARD_SIZE).takeWhile fun k =>
          inBoundsI (posAt r c d k).1 (posAt r c d k).2).filter
        (cellMatches b r c d p)).getLast?).elim none some := by
  unfold rayScan
  rw [show (fun (found : Option Nat) (k : Nat) =>
      match getCell b (posAt r c d k).1.toNat (posAt r c d k).2.toNat with
      | some board_card => if p board_card then some k else found
      | none => found) =
      (fun (found : Option Nat) (k : Nat) =>
        if cellMatches b r c d p k then some k else found) from ?_]
  · exact foldl_keep_last (cellMatches b r c d p) _ none
  · funext found k
    unfold cellMatches
    cases getCell b (posAt r c d k).1.toNat (posAt r c d k).2.toNat with
    | none => simp
    | some card => rfl

lemma rayMatch_iff_mem (b : Board) (r c : Nat) (d : Int × Int) (p : Card → Bool)
    (hd : d ∈ directions) (hr : r < BOARD_SIZE) (hc : c < BOARD_SIZE) (k : Nat) :
    rayMatch b r c d p k ↔
      k ∈ ((List.range' 1 BOARD_SIZE).takeWhile fun j =>
          inBoundsI (posAt r c d j).1 (posAt r c d j).2).filter
        (cellMatches b r c d p) := by
  rw [takeWhile_eq_filter _ (fun j => dir_closure d hd r c hr hc j),
    List.mem_filter, List.mem_filter, List.mem_range'_1]
  unfold rayMatch
  constructor
  · rintro ⟨h1, h2, h3⟩
    exact ⟨⟨⟨h1, by have := dir_bound d hd r c hr hc k h2; omega⟩, h2⟩, h3⟩
  · rintro ⟨⟨⟨h1, _⟩, h2⟩, h3⟩
    exact ⟨h1, h2, h3⟩

lemma scanned_pairwise (b : Board) (r c : Nat) (d : Int × Int) (p : Card → Bool) :
    (((List.range' 1 BOARD_SIZE).takeWhile fun j =>
        inBoundsI (posAt r c d j).1 (posAt r c d j).2).filter
      (cellMatches b r c d p)).Pairwise (· < ·) := by
  apply List.Pairwise.filter
  apply List.Pairwise.sublist (List.takeWhile_sublist _)
  exact List.pairwise_lt_range' 1 BOARD_SIZE 1

lemma rayScan_some_iff (b : Board) (r c : Nat) (d : Int × Int) (p : Card → Bool)
    (hd : d ∈ directions) (hr : r < BOARD_SIZE) (hc : c < BOARD_SIZE) (k : Nat) :
    rayScan b r c d p = some k ↔
      rayMatch b r c d p k ∧ ∀ j, rayMatch b r c d p j → j ≤ k := by
  rw [rayScan_eq_getLast]
  cases hgl : (((List.range' 1 BOARD_SIZE).takeWhile fun j =>
      inBoundsI (posAt r c d j).1 (posAt r c d j).2).filter
    (cellMatches b r c d p)).getLast? with
  | none =>
    simp only [Option.elim]
    constructor
    · intro h
      simp at h
    · rintro ⟨h1, _⟩
      rw [rayMatch_iff_mem b r c d p hd hr hc] at h1
      rw [List.getLast?_eq_none_iff] at hgl
      rw [hgl] at h1
      simp at h1
  | some v =>
    simp only [Option.elim, Option.some_inj]
    rw [getLast?_eq_max _ (scanned_pairwise b r c d p) v] at hgl
    constructor
    · rintro rfl
      refine ⟨(rayMatch_iff_mem b r c d p hd hr hc v).mpr hgl.1, ?_⟩
      intro j hj
      exact hgl.2 j ((rayMatch_iff_mem b r c d p hd hr hc j).mp hj)
    · rintro ⟨h1, h2⟩
      have hv := (rayMatch_iff_mem b r c d p hd hr hc v).mpr hgl.1
      have h3 := h2 v hv
      have h4 := hgl.2 k ((rayMatch_iff_mem b r c d p hd hr hc k).mp h1)
      omega

lemma rayScan_none_iff (b : Board) (r c : Nat) (d : Int × Int) (p : Card → Bool)
    (hd : d ∈ directions) (hr : r < BOARD_SIZE) (hc : c < BOARD_SIZE) :
    rayScan b r c d p = none ↔ ∀ k, ¬ rayMatch b r c d p k := by
  rw [rayScan_eq_getLast]
  cases hgl : (((List.range' 1 BOARD_SIZE).takeWhile fun j =>
      inBoundsI (posAt r c d j).1 (posAt r c d j).2).filter
    (cellMatches b r c d p)).getLast? with
  | none =>
    simp only [Option.elim, true_iff]
    intro k hk
    rw [rayMatch_iff_mem b r c d p hd hr hc] at hk
    rw [List.getLast?_eq_none_iff] at hgl
    rw [hgl] at hk
    simp at hk
  | some v =>
    simp only [Option.elim]
    constructor
    · intro h
      simp at h
    · intro h
      exfalso
      rw [getLast?_eq_max _ (scanned_pairwise b r c d p) v] at hgl
      exact h v ((rayMatch_iff_mem b r c d p hd hr hc v).mpr hgl.1)

/-! ## Claims -/

/-- C3: `apply_move` returns false exactly when the card index is out of
the current hand or the location is unplayable, and a false return leaves
the state (board, every hand, every deck, turn index) unchanged. -/
theorem claim_C3 (shuffle : List Card → List Card) (gs : GameState) (m : PlayerMove)
    (h : gs.turn < gs.players.length) :
    ((GameState.apply_move shuffle gs m).1 = false ↔
      (gs.players[gs.turn].2.hand.length ≤ m.card ∨
        gs.board.can_play_at m.location.1 m.location.2 = false)) ∧
    ((GameState.apply_move shuffle gs m).1 = false →
      (GameState.apply_move shuffle gs m).2 = gs) := by
  have hget : gs.players.getD gs.turn dfltPlayer = gs.players[gs.turn] :=
    List.getD_eq_getElem _ _ h
  unfold GameState.apply_move
  rw [hget]
  by_cases h1 : gs.players[gs.turn].2.hand.length ≤ m.card
  · simp [h1]
  · by_cases h2 : gs.board.can_play_at m.location.1 m.location.2
    · simp [h1, h2]
    · simp [h1, h2]

/-- Witness for C3: an out-of-hand card index is rejected and leaves the
state unchanged. -/
theorem claim_C3_witness :
    (GameState.apply_move (fun l => l)
        (GameState.mk ⟨false, .SameNumber⟩ emptyBoard [("A", ⟨[⟨.Clubs, .Ace⟩], []⟩)] 0)
        ⟨3, (5, 5)⟩).1 = false ∧
    (GameState.apply_move (fun l => l)
        (GameState.mk ⟨false, .SameNumber⟩ emptyBoard [("A", ⟨[⟨.Clubs, .Ace⟩], []⟩)] 0)
        ⟨3, (5, 5)⟩).2 =
      GameState.mk ⟨false, .SameNumber⟩ emptyBoard [("A", ⟨[⟨.Clubs, .Ace⟩], []⟩)] 0 := by
  have h := claim_C3 (fun l => l)
    (GameState.mk ⟨false, .SameNumber⟩ emptyBoard [("A", ⟨[⟨.Clubs, .Ace⟩], []⟩)] 0)
    ⟨3, (5, 5)⟩ (by decide)
  exact ⟨h.1.mpr (Or.inl (by decide)), h.2 (h.1.mpr (Or.inl (by decide)))⟩

/-- C4: `can_play_at` is false out of bounds or on an occupied cell; on an
empty board it is true exactly at the center `(5, 5)`; on a non-empty board
it is true iff the cell is in bounds, empty, and has an occupied neighbor
among its 8 neighbors (4 orthogonal + 4 diagonal). -/
theorem claim_C4 (b : Board) (r c : Nat) :
    ((r ≥ BOARD_SIZE ∨ c ≥ BOARD_SIZE ∨ getCell b r c ≠ none) →
      b.can_play_at r c = false) ∧
    (boardAllEmpty b → (b.can_play_at r c = true ↔ r = 5 ∧ c = 5)) ∧
    (¬ boardAllEmpty b →
      (b.can_play_at r c = true ↔
        r < BOARD_SIZE ∧ c < BOARD_SIZE ∧ getCell b r c = none ∧
          hasOccupiedNeighbor b r c)) := by
  refine ⟨can_play_at_oob_occ b r c, fun hall => ?_, can_play_at_nonempty b r c⟩
  have h5 : BOARD_SIZE / 2 = 5 := by decide
  rw [can_play_at_empty b r c hall, h5]

/-- Witness for C4 at concrete boards and positions. -/
theorem claim_C4_witness :
    Board.can_play_at emptyBoard 5 5 = true ∧
    Board.can_play_at emptyBoard 0 0 = false ∧
    Board.can_play_at (setCell emptyBoard 5 5 (some ⟨.Hearts, .Ace⟩)) 4 5 = true ∧
    Board.can_play_at (setCell emptyBoard 5 5 (some ⟨.Hearts, .Ace⟩)) 11 0 = false := by
  refine ⟨((claim_C4 emptyBoard 5 5).2.1 (by decide)).mpr (by decide), ?_,
    ((claim_C4 (setCell emptyBoard 5 5 (some ⟨.Hearts, .Ace⟩)) 4 5).2.2
      (by decide)).mpr (by decide),
    (claim_C4 (setCell emptyBoard 5 5 (some ⟨.Hearts, .Ace⟩)) 11 0).1
      (Or.inl (by decide))⟩
  have h := (claim_C4 emptyBoard 0 0).2.1 (by decide)
  simp only [show ¬((0 : Nat) = 5 ∧ (0 : Nat) = 5) by simp, iff_false] at h
  simpa using h

/-- C5: the basic variant's predicate holds iff the ranks are equal; the
ranked-suit variant's iff the ranks are equal or the suits are equal and
the target's rank (Ace = 1 .. King = 13) is strictly lower; a same-suit
card of equal or higher rank that does not match by rank is never
matched. -/
theorem claim_C5 (played target : Card) :
    (takingPredicate .SameNumber played target = true ↔
      target.value.toU8 = played.value.toU8) ∧
    (takingPredicate .SameNumberOrSuitRanked played target = true ↔
      (target.value.toU8 = played.value.toU8 ∨
        (target.suit = played.suit ∧ target.value.toU8 < played.value.toU8))) ∧
    (target.suit = played.suit → played.value.toU8 ≤ target.value.toU8 →
      target.value.toU8 ≠ played.value.toU8 →
      takingPredicate .SameNumberOrSuitRanked played target = false) := by
  have hinj : ∀ v w : Value, v.toU8 = w.toU8 → v = w := by
    intro v w h
    cases v <;> cases w <;> first | rfl | simp [Value.toU8] at h
  have h1 : (takingPredicate .SameNumber played target = true ↔
      target.value.toU8 = played.value.toU8) := by
    unfold takingPredicate
    simp only [beq_iff_eq]
    exact ⟨fun h => h ▸ rfl, fun h => hinj _ _ h⟩
  have h2 : (takingPredicate .SameNumberOrSuitRanked played target = true ↔
      (target.value.toU8 = played.value.toU8 ∨
        (target.suit = played.suit ∧ target.value.toU8 < played.value.toU8))) := by
    unfold takingPredicate
    simp only [Bool.or_eq_true, Bool.and_eq_true, beq_iff_eq, decide_eq_true_eq]
    constructor
    · rintro (h | ⟨hs, hv⟩)
      · exact Or.inl (h ▸ rfl)
      · exact Or.inr ⟨hs, hv⟩
    · rintro (h | ⟨hs, hv⟩)
      · exact Or.inl (hinj _ _ h)
      · exact Or.inr ⟨hs, hv⟩
  refine ⟨h1, h2, fun hs hle hne => ?_⟩
  rw [← Bool.not_eq_true]
  intro h
  rcases h2.mp h with h | ⟨_, h⟩
  · exact hne h
  · omega

/-- Witness for C5: a same-suit higher-rank card is not matched. -/
theorem claim_C5_witness :
    takingPredicate .SameNumberOrSuitRanked ⟨.Hearts, .Queen⟩ ⟨.Hearts, .King⟩ = false :=
  (claim_C5 ⟨.Hearts, .Queen⟩ ⟨.Hearts, .King⟩).2.2 rfl (by decide) (by decide)

/-- C6 (failing part): with 3 players in plain mode and the remainder card
assigned to player 0 (a legal `choose_multiple` outcome: one distinct
index below 3, `52 % 3 = 1`), dealing from any 52-card deck is NOT a
partition into disjoint shares: the card at index 17 of the shuffled deck
is dealt to both player 0 and player 1, and the card at index 51 is dealt
to nobody, because the slice `deck[i*17 .. (i+1)*17 + extra_i]` ignores
the extra cards handed to earlier players.  Evaluated here on the
unshuffled deck. -/
theorem claim_C6 :
    ([0] : List Nat).Nodup ∧ (∀ x ∈ ([0] : List Nat), x < 3) ∧
    ([0] : List Nat).length = 52 % 3 ∧
    fullDeck.Nodup ∧ fullDeck.length = 52 ∧
    ((GameState.new ["A", "B", "C"] ⟨false, .SameNumber⟩ fullDeck [0]).players.map
        fun p => p.2.hand.length + p.2.deck.length) = [18, 17, 17] ∧
    (fullDeck.getD 17 ⟨.Clubs, .Ace⟩) ∈
      (((GameState.new ["A", "B", "C"] ⟨false, .SameNumber⟩ fullDeck [0]).players.getD
          0 dfltPlayer).2.hand ++
        ((GameState.new ["A", "B", "C"] ⟨false, .SameNumber⟩ fullDeck [0]).players.getD
          0 dfltPlayer).2.deck) ∧
    (fullDeck.getD 17 ⟨.Clubs, .Ace⟩) ∈
      (((GameState.new ["A", "B", "C"] ⟨false, .SameNumber⟩ fullDeck [0]).players.getD
          1 dfltPlayer).2.hand ++
        ((GameState.new ["A", "B", "C"] ⟨false, .SameNumber⟩ fullDeck [0]).players.getD
          1 dfltPlayer).2.deck) ∧
    (∀ p ∈ (GameState.new ["A", "B", "C"] ⟨false, .SameNumber⟩ fullDeck [0]).players,
      (fullDeck.getD 51 ⟨.Clubs, .Ace⟩) ∉ (p.2.hand ++ p.2.deck)) := by
  decide

/-- C8: `someone_has_won` is true iff at most one player has a nonempty
hand or deck; resetting a Running server yields a Lobby with the same
options and join code, capacity equal to the game's player count, and an
empty connection registry (the game state is discarded). -/
theorem claim_C8 {Conn : Type} (gs : GameState) (conns : List (String × Conn))
    (jc : String) :
    (gs.someone_has_won = true ↔
      (gs.players.countP fun p => decide (p.2.hand ≠ [] ∨ p.2.deck ≠ [])) ≤ 1) ∧
    (ServerState.reset (.Running gs conns jc) gs.get_player_names.length =
      some (.Lobby gs.game_options gs.players.length [] jc)) := by
  constructor
  · unfold GameState.someone_has_won
    rw [← List.countP_eq_length_filter]
    have : ∀ p : String × PlayerState,
        p.2.has_cards = decide (p.2.hand ≠ [] ∨ p.2.deck ≠ []) := by
      intro p
      unfold PlayerState.has_cards
      rcases p with ⟨n, ⟨h, d⟩⟩
      cases h <;> cases d <;> simp
    simp only [decide_eq_true_eq]
    rw [List.countP_congr fun p _ => by rw [this p]]
  · unfold ServerState.reset GameState.get_options GameState.get_player_names
    simp

/-- C9: `state_for` fails exactly on out-of-range indices, and otherwise
projects the full board, the viewer's own hand, deck and username, the
turn index, and per-player usernames with total card counts only. -/
theorem claim_C9 (gs : GameState) (i : Nat) :
    (gs.state_for i = none ↔ gs.players.length ≤ i) ∧
    (∀ h : i < gs.players.length,
      gs.state_for i = some
        { board := gs.board
        , hand := (gs.players.get ⟨i, h⟩).2.hand
        , deck := (gs.players.get ⟨i, h⟩).2.deck
        , username := (gs.players.get ⟨i, h⟩).1
        , players := gs.players.map fun p => (p.1, p.2.hand.length + p.2.deck.length)
        , turn := gs.turn }) := by
  constructor
  · unfold GameState.state_for
    by_cases h : i ≥ gs.players.length
    · simp [h]
    · simp [h]
  · intro h
    unfold GameState.state_for
    rw [if_neg (by omega)]
    have hget : gs.players.getD i dfltPlayer = gs.players.get ⟨i, h⟩ := by
      rw [List.getD_eq_getElem _ _ h]
      rfl
    rw [hget]

/-- Witness for C9 at a concrete two-player state. -/
theorem claim_C9_witness :
    (GameState.mk ⟨false, .SameNumber⟩ emptyBoard
        [("A", ⟨[⟨.Clubs, .Ace⟩], [⟨.Clubs, .Two⟩]⟩), ("B", ⟨[], [⟨.Clubs, .Three⟩]⟩)]
        0).state_for 1 =
      some { board := emptyBoard
           , hand := []
           , deck := [⟨.Clubs, .Three⟩]
           , username := "B"
           , players := [("A", 2), ("B", 1)]
           , turn := 0 } := by
  have h := (claim_C9 (GameState.mk ⟨false, .SameNumber⟩ emptyBoard
      [("A", ⟨[⟨.Clubs, .Ace⟩], [⟨.Clubs, .Two⟩]⟩), ("B", ⟨[], [⟨.Clubs, .Three⟩]⟩)]
      0) 1).2 (by decide)
  simpa using h

/-- C1: dealing establishes, and `apply_move` preserves, the invariant
that the cards on the board plus the cards in all hands and decks plus
the sequestered cards equal 52. -/
theorem claim_C1 (player_names : List String) (go : GameOptions) (deck : List Card)
    (extras : List Nat) (shuffle : List Card → List Card) (gs : GameState)
    (m : PlayerMove) :
    (deck.length = 52 → extras.Nodup → (∀ x ∈ extras, x < player_names.length) →
      extras.length = 52 % player_names.length → 1 ≤ player_names.length →
      totalCards (GameState.new player_names go deck extras) +
        sequesteredCount go player_names.length = 52) ∧
    (gs.turn < gs.players.length → gs.board.WF → (∀ l, (shuffle l).Perm l) →
      totalCards (GameState.apply_move shuffle gs m).2 +
          sequesteredCount (GameState.apply_move shuffle gs m).2.game_options
            (GameState.apply_move shuffle gs m).2.players.length =
        totalCards gs + sequesteredCount gs.game_options gs.players.length) := by
  constructor
  · intro hlen hnodup hlt hext hn
    exact totalCards_new player_names go deck extras hlen hnodup hlt hext hn
  · intro hturn hwf hperm
    obtain ⟨hopt, hplen⟩ := apply_move_frame shuffle gs m
    rw [hopt, hplen, totalCards_apply_move shuffle gs m hturn hwf hperm]

/-- Witness for C1: a fresh two-player plain-mode deal holds 52 cards,
and a concrete accepted move preserves the total. -/
theorem claim_C1_witness :
    (totalCards (GameState.new ["A", "B"] ⟨false, .SameNumber⟩ fullDeck []) +
      sequesteredCount ⟨false, .SameNumber⟩ 2 = 52) ∧
    (totalCards (GameState.apply_move (fun l => l)
          (GameState.mk ⟨false, .SameNumber⟩ emptyBoard
            [("A", ⟨[⟨.Clubs, .Ace⟩], []⟩), ("B", ⟨[⟨.Clubs, .Two⟩], []⟩)] 0)
          ⟨0, (5, 5)⟩).2 +
        sequesteredCount (GameState.apply_move (fun l => l)
          (GameState.mk ⟨false, .SameNumber⟩ emptyBoard
            [("A", ⟨[⟨.Clubs, .Ace⟩], []⟩), ("B", ⟨[⟨.Clubs, .Two⟩], []⟩)] 0)
          ⟨0, (5, 5)⟩).2.game_options
          (GameState.apply_move (fun l => l)
          (GameState.mk ⟨false, .SameNumber⟩ emptyBoard
            [("A", ⟨[⟨.Clubs, .Ace⟩], []⟩), ("B", ⟨[⟨.Clubs, .Two⟩], []⟩)] 0)
          ⟨0, (5, 5)⟩).2.players.length =
      totalCards (GameState.mk ⟨false, .SameNumber⟩ emptyBoard
            [("A", ⟨[⟨.Clubs, .Ace⟩], []⟩), ("B", ⟨[⟨.Clubs, .Two⟩], []⟩)] 0) +
        sequesteredCount ⟨false, .SameNumber⟩ 2) :=
  ⟨(claim_C1 ["A", "B"] ⟨false, .SameNumber⟩ fullDeck [] (fun l => l)
      (GameState.mk ⟨false, .SameNumber⟩ emptyBoard
        [("A", ⟨[⟨.Clubs, .Ace⟩], []⟩), ("B", ⟨[⟨.Clubs, .Two⟩], []⟩)] 0)
      ⟨0, (5, 5)⟩).1 (by decide) (by decide) (by decide) (by decide) (by decide),
   (claim_C1 ["A", "B"] ⟨false, .SameNumber⟩ fullDeck [] (fun l => l)
      (GameState.mk ⟨false, .SameNumber⟩ emptyBoard
        [("A", ⟨[⟨.Clubs, .Ace⟩], []⟩), ("B", ⟨[⟨.Clubs, .Two⟩], []⟩)] 0)
      ⟨0, (5, 5)⟩).2 (by decide) ⟨by decide, by decide⟩ (fun l => List.Perm.refl l)⟩

/-- C10: in a successful move, the cards collected from the board number
exactly the distinct occupied captured cells (each cell's card is taken at
most once even when it lies on several capturing rays), every captured
cell ends up empty, and the cards appended to the acting player's deck
number the same. -/
theorem claim_C10 (shuffle : List Card → List Card) (gs : GameState) (m : PlayerMove)
    (hsucc : (GameState.apply_move shuffle gs m).1 = true) :
    ((takenCards gs m).length =
      ((capturedPositions gs m).toFinset.filter fun q =>
        (getCell (boardAfterPlay gs m) q.1 q.2).isSome = true).card) ∧
    (∀ q ∈ capturedPositions gs m,
      getCell (boardAfterTake gs m) q.1 q.2 = none) ∧
    ((∀ l, (shuffle l).Perm l) →
      (deckAfterCapture shuffle gs m).length =
        (gs.players.getD gs.turn dfltPlayer).2.deck.length +
          ((capturedPositions gs m).toFinset.filter fun q =>
            (getCell (boardAfterPlay gs m) q.1 q.2).isSome = true).card) := by
  refine ⟨takeCells_length (capturedPositions gs m) (boardAfterPlay gs m),
    fun q hq => takeCells_clears (capturedPositions gs m) (boardAfterPlay gs m) q hq,
    fun hperm => ?_⟩
  unfold deckAfterCapture
  rw [List.length_append, (hperm (takenCards gs m)).length_eq]
  unfold takenCards
  rw [takeCells_length (capturedPositions gs m) (boardAfterPlay gs m)]

/-- Witness for C10: a play capturing along two rays that both list the
played cell; three cards are taken, not four. -/
theorem claim_C10_witness :
    (takenCards
        (GameState.mk ⟨false, .SameNumber⟩
          (setCell (setCell emptyBoard 5 6 (some ⟨.Hearts, .Ace⟩)) 6 5
            (some ⟨.Diamonds, .Ace⟩))
          [("A", ⟨[⟨.Clubs, .Ace⟩], []⟩), ("B", ⟨[⟨.Clubs, .Two⟩], []⟩)] 0)
        ⟨0, (5, 5)⟩).length = 3 := by
  have h := (claim_C10 (fun l => l)
    (GameState.mk ⟨false, .SameNumber⟩
      (setCell (setCell emptyBoard 5 6 (some ⟨.Hearts, .Ace⟩)) 6 5
        (some ⟨.Diamonds, .Ace⟩))
      [("A", ⟨[⟨.Clubs, .Ace⟩], []⟩), ("B", ⟨[⟨.Clubs, .Two⟩], []⟩)] 0)
    ⟨0, (5, 5)⟩ (by decide)).1
  rw [h]
  decide

/-- C7: after a successful move the acting player's hand is refilled from
the front of their deck to exactly `HAND_SIZE` cards unless the deck runs
out, and the new turn index is the first position cyclically after the
old one whose player still holds cards. -/
theorem claim_C7 (shuffle : List Card → List Card) (gs : GameState) (m : PlayerMove)
    (hturn : gs.turn < gs.players.length)
    (hhand : (gs.players.getD gs.turn dfltPlayer).2.hand.length ≤ HAND_SIZE)
    (htwo : 2 ≤ gs.players.countP fun p => p.2.has_cards)
    (hsucc : (GameState.apply_move shuffle gs m).1 = true) :
    (((GameState.apply_move shuffle gs m).2.players.getD gs.turn
        dfltPlayer).2.hand.length = HAND_SIZE ∨
      ((GameState.apply_move shuffle gs m).2.players.getD gs.turn
        dfltPlayer).2.deck = []) ∧
    ((GameState.apply_move shuffle gs m).2.players.getD gs.turn
      dfltPlayer).2.hand.length ≤ HAND_SIZE ∧
    ((GameState.apply_move shuffle gs m).2.players.getD gs.turn dfltPlayer).2.hand =
      handAfterPlay gs m ++ (deckAfterCapture shuffle gs m).take
        (HAND_SIZE - (handAfterPlay gs m).length) ∧
    ((GameState.apply_move shuffle gs m).2.players.getD gs.turn dfltPlayer).2.deck =
      (deckAfterCapture shuffle gs m).drop
        (HAND_SIZE - (handAfterPlay gs m).length) ∧
    ∃ s, 1 ≤ s ∧ s ≤ gs.players.length ∧
      (GameState.apply_move shuffle gs m).2.turn =
        (gs.turn + s) % gs.players.length ∧
      ((GameState.apply_move shuffle gs m).2.players.getD
        ((GameState.apply_move shuffle gs m).2.turn) dfltPlayer).2.has_cards = true ∧
      ∀ j, 1 ≤ j → j < s →
        ((GameState.apply_move shuffle gs m).2.players.getD
          ((gs.turn + j) % gs.players.length) dfltPlayer).2.has_cards = false := by
  obtain ⟨hcard, hplay⟩ := apply_move_true_cond shuffle gs m hsucc
  have hres := congrArg Prod.snd (apply_move_success shuffle gs m hcard hplay)
  dsimp only at hres
  rw [hres]
  dsimp only
  have hx : ∀ y : String × PlayerState,
      (gs.players.set gs.turn y).getD gs.turn dfltPlayer = y := by
    intro y
    rw [List.getD_eq_getElem?_getD, List.getElem?_set_self (by simpa using hturn)]
    rfl
  rw [hx]
  dsimp only
  have hlenH : (handAfterPlay gs m).length =
      (gs.players.getD gs.turn dfltPlayer).2.hand.length - 1 := by
    unfold handAfterPlay
    exact List.length_eraseIdx_of_lt hcard
  refine ⟨?_, ?_, ?_, ?_, ?_⟩
  · rw [refill_eq]
    dsimp only
    by_cases hd : (deckAfterCapture shuffle gs m).length ≤
        HAND_SIZE - (handAfterPlay gs m).length
    · right
      exact List.drop_eq_nil_of_le hd
    · left
      rw [List.length_append, List.length_take]
      omega
  · rw [refill_eq]
    dsimp only
    rw [List.length_append, List.length_take]
    omega
  · rw [refill_eq]
  · rw [refill_eq]
  · -- the turn advance
    set E := gs.players.set gs.turn
      ((gs.players.getD gs.turn dfltPlayer).1,
       ⟨(refill (handAfterPlay gs m) (deckAfterCapture shuffle gs m)).1,
        (refill (handAfterPlay gs m) (deckAfterCapture shuffle gs m)).2⟩) with hE
    have hlenE : E.length = gs.players.length := by
      rw [hE, List.length_set]
    have hn : 0 < gs.players.length := by omega
    rw [hlenE]
    -- some player other than the acting one still has cards
    have hpos : 0 < E.countP fun p => p.2.has_cards := by
      have hge := countP_set_ge gs.players gs.turn
        ((gs.players.getD gs.turn dfltPlayer).1,
         ⟨(refill (handAfterPlay gs m) (deckAfterCapture shuffle gs m)).1,
          (refill (handAfterPlay gs m) (deckAfterCapture shuffle gs m)).2⟩)
        (fun p => p.2.has_cards) hturn
      rw [← hE] at hge
      omega
    obtain ⟨a, hamem, hahas⟩ := List.countP_pos.mp hpos
    obtain ⟨idx, hidx, haidx⟩ := List.getElem_of_mem hamem
    have hidxhas : (E.getD idx dfltPlayer).2.has_cards = true := by
      rw [List.getD_eq_getElem _ _ hidx, haidx]
      exact hahas
    have hidx2 : idx < gs.players.length := by
      rw [← hlenE]
      exact hidx
    obtain ⟨jw, hjw, hjweq⟩ := exists_cycle_offset gs.players.length
      ((gs.turn + 1) % gs.players.length) idx (Nat.mod_lt _ hn) hidx2
    have hex : ∃ j, (E.getD
        (((gs.turn + 1) % gs.players.length + j) % gs.players.length)
        dfltPlayer).2.has_cards = true := ⟨jw, by rw [hjweq]; exact hidxhas⟩
    classical
    set j0 := Nat.find hex with hj0def
    have hj0 := Nat.find_spec hex
    rw [← hj0def] at hj0
    have hj0min : ∀ i, i < j0 → ¬ (E.getD
        (((gs.turn + 1) % gs.players.length + i) % gs.players.length)
        dfltPlayer).2.has_cards = true := fun i hi => Nat.find_min hex hi
    have hj0le : j0 ≤ jw := Nat.find_min' hex (by rw [hjweq]; exact hidxhas)
    have hft := findTurn_first E j0 gs.players.length
      ((gs.turn + 1) % gs.players.length)
      (by rw [hlenE]; exact Nat.mod_lt _ hn) (by omega)
      (by rw [hlenE]; exact hj0)
      (fun i hi => by
        rw [hlenE]
        have := hj0min i hi
        simpa using this)
    rw [hlenE] at hft
    refine ⟨j0 + 1, by omega, by omega, ?_, ?_, ?_⟩
    · rw [hft, Nat.mod_add_mod,
        show gs.turn + 1 + j0 = gs.turn + (j0 + 1) by omega]
    · rw [hft]
      exact hj0
    · intro j hj1 hjs
      have := hj0min (j - 1) (by omega)
      rw [Nat.mod_add_mod, show gs.turn + 1 + (j - 1) = gs.turn + j by omega] at this
      simpa using this

/-- Witness for C7: player A plays their last card to the empty center;
their deck stays empty and the turn passes to player B. -/
theorem claim_C7_witness :
    (((GameState.apply_move (fun l => l) (GameState.mk ⟨false, .SameNumber⟩ emptyBoard
        [("A", ⟨[⟨.Clubs, .Ace⟩], []⟩), ("B", ⟨[⟨.Clubs, .Two⟩], []⟩)] 0)
        (⟨0, (5, 5)⟩ : PlayerMove)).2.players.getD 0 dfltPlayer).2.hand.length = 5 ∨
      ((GameState.apply_move (fun l => l) (GameState.mk ⟨false, .SameNumber⟩ emptyBoard
        [("A", ⟨[⟨.Clubs, .Ace⟩], []⟩), ("B", ⟨[⟨.Clubs, .Two⟩], []⟩)] 0)
        (⟨0, (5, 5)⟩ : PlayerMove)).2.players.getD 0 dfltPlayer).2.deck = []) ∧
    ((GameState.apply_move (fun l => l) (GameState.mk ⟨false, .SameNumber⟩ emptyBoard
        [("A", ⟨[⟨.Clubs, .Ace⟩], []⟩), ("B", ⟨[⟨.Clubs, .Two⟩], []⟩)] 0)
        (⟨0, (5, 5)⟩ : PlayerMove)).2.players.getD 0 dfltPlayer).2.hand.length ≤ 5 ∧
    ((GameState.apply_move (fun l => l) (GameState.mk ⟨false, .SameNumber⟩ emptyBoard
        [("A", ⟨[⟨.Clubs, .Ace⟩], []⟩), ("B", ⟨[⟨.Clubs, .Two⟩], []⟩)] 0)
        (⟨0, (5, 5)⟩ : PlayerMove)).2.players.getD 0 dfltPlayer).2.hand =
      (handAfterPlay (GameState.mk ⟨false, .SameNumber⟩ emptyBoard
        [("A", ⟨[⟨.Clubs, .Ace⟩], []⟩), ("B", ⟨[⟨.Clubs, .Two⟩], []⟩)] 0) (⟨0, (5, 5)⟩ : PlayerMove)) ++ (deckAfterCapture (fun l => l) (GameState.mk ⟨false, .SameNumber⟩ emptyBoard
        [("A", ⟨[⟨.Clubs, .Ace⟩], []⟩), ("B", ⟨[⟨.Clubs, .Two⟩], []⟩)] 0) (⟨0, (5, 5)⟩ : PlayerMove)).take (5 - (handAfterPlay (GameState.mk ⟨false, .SameNumber⟩ emptyBoard
        [("A", ⟨[⟨.Clubs, .Ace⟩], []⟩), ("B", ⟨[⟨.Clubs, .Two⟩], []⟩)] 0) (⟨0, (5, 5)⟩ : PlayerMove)).length) ∧
    ((GameState.apply_move (fun l => l) (GameState.mk ⟨false, .SameNumber⟩ emptyBoard
        [("A", ⟨[⟨.Clubs, .Ace⟩], []⟩), ("B", ⟨[⟨.Clubs, .Two⟩], []⟩)] 0)
        (⟨0, (5, 5)⟩ : PlayerMove)).2.players.getD 0 dfltPlayer).2.deck =
      (deckAfterCapture (fun l => l) (GameState.mk ⟨false, .SameNumber⟩ emptyBoard
        [("A", ⟨[⟨.Clubs, .Ace⟩], []⟩), ("B", ⟨[⟨.Clubs, .Two⟩], []⟩)] 0) (⟨0, (5, 5)⟩ : PlayerMove)).drop (5 - (handAfterPlay (GameState.mk ⟨false, .SameNumber⟩ emptyBoard
        [("A", ⟨[⟨.Clubs, .Ace⟩], []⟩), ("B", ⟨[⟨.Clubs, .Two⟩], []⟩)] 0) (⟨0, (5, 5)⟩ : PlayerMove)).length) ∧
    ∃ s, 1 ≤ s ∧ s ≤ 2 ∧
      (GameState.apply_move (fun l => l) (GameState.mk ⟨false, .SameNumber⟩ emptyBoard
        [("A", ⟨[⟨.Clubs, .Ace⟩], []⟩), ("B", ⟨[⟨.Clubs, .Two⟩], []⟩)] 0)
        (⟨0, (5, 5)⟩ : PlayerMove)).2.turn = (0 + s) % 2 ∧
      ((GameState.apply_move (fun l => l) (GameState.mk ⟨false, .SameNumber⟩ emptyBoard
        [("A", ⟨[⟨.Clubs, .Ace⟩], []⟩), ("B", ⟨[⟨.Clubs, .Two⟩], []⟩)] 0)
        (⟨0, (5, 5)⟩ : PlayerMove)).2.players.getD ((GameState.apply_move (fun l => l) (GameState.mk ⟨false, .SameNumber⟩ emptyBoard
        [("A", ⟨[⟨.Clubs, .Ace⟩], []⟩), ("B", ⟨[⟨.Clubs, .Two⟩], []⟩)] 0)
        (⟨0, (5, 5)⟩ : PlayerMove)).2.turn) dfltPlayer).2.has_cards = true ∧
      ∀ j, 1 ≤ j → j < s →
        ((GameState.apply_move (fun l => l) (GameState.mk ⟨false, .SameNumber⟩ emptyBoard
        [("A", ⟨[⟨.Clubs, .Ace⟩], []⟩), ("B", ⟨[⟨.Clubs, .Two⟩], []⟩)] 0)
        (⟨0, (5, 5)⟩ : PlayerMove)).2.players.getD ((0 + j) % 2) dfltPlayer).2.has_cards = false :=
  claim_C7 (fun l => l) (GameState.mk ⟨false, .SameNumber⟩ emptyBoard
        [("A", ⟨[⟨.Clubs, .Ace⟩], []⟩), ("B", ⟨[⟨.Clubs, .Two⟩], []⟩)] 0) (⟨0, (5, 5)⟩ : PlayerMove)
    (by decide) (by decide) (by decide) (by decide)


/-- C2: a cell is listed by `find_taking_cards` iff some of the 8 rays
has a furthest match (no larger distance on that ray matches) and the
cell lies on that ray between the played cell (inclusive) and the match
(inclusive) — intervening cells are listed whether or not they match;
and if no ray matches, nothing is listed and taking leaves the board
(with the just-played card on it) unchanged. -/
theorem claim_C2 (b : Board) (r c : Nat) (p : Card → Bool)
    (hr : r < BOARD_SIZE) (hc : c < BOARD_SIZE) :
    (∀ pos, pos ∈ GameState.find_taking_cards b r c p ↔
      ∃ d ∈ directions, ∃ k, rayMatch b r c d p k ∧
        (∀ j, rayMatch b r c d p j → j ≤ k) ∧
        ∃ i, i ≤ k ∧ pos = cellAt r c d i) ∧
    ((∀ d ∈ directions, ∀ k, ¬ rayMatch b r c d p k) →
      GameState.find_taking_cards b r c p = [] ∧
      takeCells b (GameState.find_taking_cards b r c p) = (b, [])) := by
  have hmem : ∀ pos, pos ∈ GameState.find_taking_cards b r c p ↔
      ∃ d ∈ directions, ∃ k, rayMatch b r c d p k ∧
        (∀ j, rayMatch b r c d p j → j ≤ k) ∧
        ∃ i, i ≤ k ∧ pos = cellAt r c d i := by
    intro pos
    unfold GameState.find_taking_cards
    rw [List.mem_flatMap]
    constructor
    · rintro ⟨d, hd, hmem2⟩
      cases hscan : rayScan b r c d p with
      | none =>
        rw [hscan] at hmem2
        simp at hmem2
      | some k =>
        rw [hscan] at hmem2
        obtain ⟨i, hi, hieq⟩ := List.mem_map.mp hmem2
        obtain ⟨hm, hmax⟩ := (rayScan_some_iff b r c d p hd hr hc k).mp hscan
        exact ⟨d, hd, k, hm, hmax,
          i, Nat.le_of_lt_succ (List.mem_range.mp hi), hieq.symm⟩
    · rintro ⟨d, hd, k, hm, hmax, i, hik, rfl⟩
      refine ⟨d, hd, ?_⟩
      rw [(rayScan_some_iff b r c d p hd hr hc k).mpr ⟨hm, hmax⟩]
      exact List.mem_map.mpr ⟨i, List.mem_range.mpr (by omega), rfl⟩
  refine ⟨hmem, fun hno => ?_⟩
  have h1 : GameState.find_taking_cards b r c p = [] := by
    rw [List.eq_nil_iff_forall_not_mem]
    intro pos hpos
    obtain ⟨d, hd, k, hm, _⟩ := (hmem pos).mp hpos
    exact hno d hd k hm
  rw [h1]
  exact ⟨rfl, rfl⟩

/-- Witness for C2: the spec's scenario — aces at (5,3) and (5,7), a
non-matching two at (5,5), ace played at (5,4); the cell (5,7) is
captured as a furthest ray match. -/
theorem claim_C2_witness :
    ∃ d ∈ directions, ∃ k,
      rayMatch (setCell (setCell (setCell (setCell emptyBoard
          5 3 (some ⟨.Clubs, .Ace⟩)) 5 5 (some ⟨.Hearts, .Two⟩))
          5 7 (some ⟨.Hearts, .Ace⟩)) 5 4 (some ⟨.Spades, .Ace⟩))
        5 4 d (fun t => t.value == Value.Ace) k ∧
      (∀ j, rayMatch (setCell (setCell (setCell (setCell emptyBoard
          5 3 (some ⟨.Clubs, .Ace⟩)) 5 5 (some ⟨.Hearts, .Two⟩))
          5 7 (some ⟨.Hearts, .Ace⟩)) 5 4 (some ⟨.Spades, .Ace⟩))
        5 4 d (fun t => t.value == Value.Ace) j → j ≤ k) ∧
      ∃ i, i ≤ k ∧ ((5, 7) : Nat × Nat) = cellAt 5 4 d i :=
  ((claim_C2 (setCell (setCell (setCell (setCell emptyBoard
      5 3 (some ⟨.Clubs, .Ace⟩)) 5 5 (some ⟨.Hearts, .Two⟩))
      5 7 (some ⟨.Hearts, .Ace⟩)) 5 4 (some ⟨.Spades, .Ace⟩))
    5 4 (fun t => t.value == Value.Ace) (by decide) (by decide)).1 (5, 7)).mp
    (by decide)


end GridOnline
